import Mathlib

/-!
Verification development for the weekly real-estate price-index dashboard
(`app.py`).  The time-series engine of the application is shallowly embedded:

* calendar dates are triples `(year, month, day)` of integers; the proleptic
  Gregorian ordinal (`datetime.toordinal`) and the ISO calendar computation
  (`datetime.isocalendar`, as implemented by CPython) are reproduced as pure
  integer functions;
* `date_to_week_format` renders the compact `YYYYWW` code; decimal strings
  produced by Python f-strings are modelled as their digit sequences (most
  significant digit first), and `int(s)`-style parsing as the evaluation of
  such digit sequences;
* pandas data frames are modelled as lists of records, index values as exact
  rationals, and the IEEE special values produced by zero denominators in
  `pct_change` as an explicit sum type `Val` (`fin`, `inf`, `negInf`, `nan`);
* `pandas.DataFrame.pivot`, which raises on duplicate `(index, column)` keys,
  is modelled as an `Except`-valued function.

Note that in Lean, `/` and `%` on `Int` are Euclidean division and remainder,
which agree with Python's floor division `//` and `%` for positive divisors
(the only divisors used below).
-/

/-- A calendar date, as carried by a Python `datetime` object. -/
structure Date where
  year : Int
  month : Int
  day : Int
deriving DecidableEq

instance : Inhabited Date := ⟨⟨1, 1, 1⟩⟩

/-- Gregorian leap-year test (as in CPython's `datetime._is_leap`). -/
def isLeap (y : Int) : Bool :=
  decide ((y % 4 = 0 ∧ y % 100 ≠ 0) ∨ y % 400 = 0)

/-- Cumulative day count before month `m` in a non-leap year
(`_DAYS_BEFORE_MONTH` in CPython's `datetime`). -/
def monthOffset (m : Int) : Int :=
  if m ≤ 1 then 0
  else if m = 2 then 31
  else if m = 3 then 59
  else if m = 4 then 90
  else if m = 5 then 120
  else if m = 6 then 151
  else if m = 7 then 181
  else if m = 8 then 212
  else if m = 9 then 243
  else if m = 10 then 273
  else if m = 11 then 304
  else 334

/-- Days before month `m` of year `y` (leap day included), as CPython's
`datetime._days_before_month`. -/
def daysBeforeMonth (y m : Int) : Int :=
  monthOffset m + (if 2 < m ∧ isLeap y then 1 else 0)

/-- Number of days in month `m` of year `y` (CPython `datetime._days_in_month`). -/
def daysInMonth (y m : Int) : Int :=
  if m = 2 then (if isLeap y then 29 else 28)
  else if m = 4 ∨ m = 6 ∨ m = 9 ∨ m = 11 then 30
  else 31

/-- Days before January 1st of year `y` (CPython `datetime._days_before_year`). -/
def daysBeforeYear (y : Int) : Int :=
  365 * (y - 1) + (y - 1) / 4 - (y - 1) / 100 + (y - 1) / 400

/-- Proleptic Gregorian ordinal of a date, with `0001-01-01` mapped to `1`
(CPython `datetime.toordinal`). -/
def toordinal (dt : Date) : Int :=
  daysBeforeYear dt.year + daysBeforeMonth dt.year dt.month + dt.day

/-- A well-formed calendar date of the proleptic Gregorian calendar. -/
def validDate (dt : Date) : Prop :=
  1 ≤ dt.year ∧ 1 ≤ dt.month ∧ dt.month ≤ 12 ∧ 1 ≤ dt.day ∧
    dt.day ≤ daysInMonth dt.year dt.month

instance (dt : Date) : Decidable (validDate dt) := by unfold validDate; infer_instance

/-- Ordinal of the Monday starting ISO week 1 of `year`
(CPython `datetime._isoweek1monday`; `THURSDAY = 3` with Monday = 0). -/
def isoweek1monday (year : Int) : Int :=
  toordinal ⟨year, 1, 1⟩ - (toordinal ⟨year, 1, 1⟩ + 6) % 7 +
    (if 3 < (toordinal ⟨year, 1, 1⟩ + 6) % 7 then 7 else 0)

/-- The ISO `(year, week)` pair of a date, exactly as computed by CPython's
`datetime.isocalendar` (the day-of-week component is dropped, since
`date_to_week_format` only reads entries 0 and 1 of the result). -/
def isocalendarYW (dt : Date) : Int × Int :=
  let today := toordinal dt
  let week := (today - isoweek1monday dt.year) / 7
  if week < 0 then
    (dt.year - 1, (today - isoweek1monday (dt.year - 1)) / 7 + 1)
  else if 52 ≤ week ∧ isoweek1monday (dt.year + 1) ≤ today then
    (dt.year + 1, 1)
  else
    (dt.year, week + 1)

/-! Arithmetic facts about the calendar embedding. -/

/-- The in-year day offset of a valid date lies between 1 and the year's length. -/
lemma daysBeforeMonth_day_bound (y m d : Int) (hm1 : 1 ≤ m) (hm2 : m ≤ 12)
    (hd1 : 1 ≤ d) (hd2 : d ≤ daysInMonth y m) :
    1 ≤ daysBeforeMonth y m + d ∧
    daysBeforeMonth y m + d ≤ 365 + (if isLeap y then 1 else 0) := by
  interval_cases m <;>
    simp only [daysInMonth, daysBeforeMonth, monthOffset] at hd2 ⊢ <;>
    norm_num at hd2 ⊢ <;>
    split_ifs at * <;> omega

/-- The day offset of December 31st equals the year's length. -/
lemma daysBeforeMonth_dec (y : Int) :
    daysBeforeMonth y 12 + 31 = 365 + (if isLeap y then 1 else 0) := by
  simp only [daysBeforeMonth, monthOffset]
  norm_num
  split_ifs <;> simp only [isLeap, decide_eq_true_eq] at * <;> omega

/-- The day offset of January 1st is 1. -/
lemma daysBeforeMonth_jan (y : Int) :
    daysBeforeMonth y 1 + 1 = 1 := by
  simp only [daysBeforeMonth, monthOffset]
  norm_num

/-- Within a valid date's year, the ordinal is bounded below by January 1st
and above by December 31st. -/
lemma toordinal_year_bounds (dt : Date) (h : validDate dt) :
    toordinal ⟨dt.year, 1, 1⟩ ≤ toordinal dt ∧
    toordinal dt ≤ toordinal ⟨dt.year, 12, 31⟩ := by
  obtain ⟨_, hm1, hm2, hd1, hd2⟩ := h
  have hb := daysBeforeMonth_day_bound dt.year dt.month dt.day hm1 hm2 hd1 hd2
  have h31 := daysBeforeMonth_dec dt.year
  have h11 := daysBeforeMonth_jan dt.year
  unfold toordinal at *
  dsimp only at *
  omega

/-- December 31st is immediately followed by January 1st of the next year. -/
lemma dec31_succ (y : Int) :
    toordinal ⟨y, 12, 31⟩ + 1 = toordinal ⟨y + 1, 1, 1⟩ := by
  simp only [toordinal, daysBeforeMonth, daysBeforeYear, monthOffset]
  norm_num
  split_ifs <;> simp only [isLeap, decide_eq_true_eq] at * <;> omega

/-- A calendar year spans 365 or 366 ordinals. -/
lemma year_length (y : Int) :
    toordinal ⟨y + 1, 1, 1⟩ - toordinal ⟨y, 1, 1⟩ = 365 ∨
    toordinal ⟨y + 1, 1, 1⟩ - toordinal ⟨y, 1, 1⟩ = 366 := by
  simp only [toordinal, daysBeforeMonth, daysBeforeYear, monthOffset]
  norm_num
  omega

/-- The Monday of ISO week 1 lies within three days of January 1st, and its
ordinal is congruent to 1 modulo 7 (ordinal 1, the 1st of January of year 1,
is a Monday, so Mondays are exactly the ordinals congruent to 1 modulo 7). -/
lemma isoweek1monday_bounds (y : Int) :
    toordinal ⟨y, 1, 1⟩ - 3 ≤ isoweek1monday y ∧
    isoweek1monday y ≤ toordinal ⟨y, 1, 1⟩ + 3 ∧
    isoweek1monday y % 7 = 1 := by
  unfold isoweek1monday
  split_ifs <;> omega

/-- CPython's `isocalendar` places every valid date inside the 7-day window
that starts on the Monday of the returned ISO week of the returned ISO year:
the returned pair is the ISO week the date belongs to, never a pair derived
from the date's plain calendar year. -/
lemma isocalendar_week_window (dt : Date) (h : validDate dt) :
    isoweek1monday (isocalendarYW dt).1 + 7 * ((isocalendarYW dt).2 - 1) ≤ toordinal dt ∧
    toordinal dt ≤ isoweek1monday (isocalendarYW dt).1 + 7 * ((isocalendarYW dt).2 - 1) + 6 := by
  have hyb := toordinal_year_bounds dt h
  have hw1 := isoweek1monday_bounds dt.year
  have hw0 := isoweek1monday_bounds (dt.year - 1)
  have hw2 := isoweek1monday_bounds (dt.year + 1)
  have hdec := dec31_succ dt.year
  have hdec0 := dec31_succ (dt.year - 1)
  have hyl0 := year_length (dt.year - 1)
  have hyl := year_length dt.year
  have hy : dt.year - 1 + 1 = dt.year := by ring
  rw [hy] at hdec0 hyl0
  unfold isocalendarYW
  dsimp only
  split_ifs <;> dsimp only <;> omega

/-- The ISO week number computed by `isocalendar` lies in `1..53`. -/
lemma isocalendar_week_bounds (dt : Date) (h : validDate dt) :
    1 ≤ (isocalendarYW dt).2 ∧ (isocalendarYW dt).2 ≤ 53 := by
  have hyb := toordinal_year_bounds dt h
  have hw1 := isoweek1monday_bounds dt.year
  have hw0 := isoweek1monday_bounds (dt.year - 1)
  have hw2 := isoweek1monday_bounds (dt.year + 1)
  have hdec := dec31_succ dt.year
  have hdec0 := dec31_succ (dt.year - 1)
  have hyl0 := year_length (dt.year - 1)
  have hyl := year_length dt.year
  have hy : dt.year - 1 + 1 = dt.year := by ring
  rw [hy] at hdec0 hyl0
  unfold isocalendarYW
  dsimp only
  split_ifs <;> dsimp only <;> omega

/-! Decimal digit strings.  A Python f-string rendering of a non-negative
integer is modelled as its list of decimal digits (most significant first);
`int(...)` applied to a digit string is modelled by `digitsToNat`. -/

/-- Fuel-driven digit accumulator (structural recursion so that concrete
digit strings evaluate inside the kernel). -/
def natDigitsCore : Nat → Nat → List Nat → List Nat
  | 0, n, acc => n :: acc
  | fuel + 1, n, acc =>
    if n < 10 then n :: acc else natDigitsCore fuel (n / 10) (n % 10 :: acc)

/-- Decimal digits of `n`, most significant first (model of `str(n)`/f-string
rendering for a non-negative integer). -/
def natDigits (n : Nat) : List Nat :=
  natDigitsCore (n + 1) n []

/-- Value of a decimal digit string (model of Python `int(s)`). -/
def digitsToNat (s : List Nat) : Nat :=
  s.foldl (fun a d => a * 10 + d) 0

lemma natDigitsCore_spec (fuel : Nat) :
    ∀ n acc, n < fuel → natDigitsCore fuel n acc = natDigitsCore (n + 1) n [] ++ acc := by
  induction fuel using Nat.strong_induction_on with
  | _ fuel ih =>
    intro n acc hn
    cases fuel with
    | zero => omega
    | succ f =>
      by_cases h10 : n < 10
      · simp [natDigitsCore, if_pos h10]
      · have hge : 10 ≤ n := by omega
        have hdiv : n / 10 < n := Nat.div_lt_self (by omega) (by omega)
        have hlhs : natDigitsCore (f + 1) n acc = natDigitsCore f (n / 10) (n % 10 :: acc) := by
          simp [natDigitsCore, if_neg h10]
        have hrhs : natDigitsCore (n + 1) n [] = natDigitsCore n (n / 10) [n % 10] := by
          simp [natDigitsCore, if_neg h10]
        rw [hlhs, hrhs]
        rw [ih f (by omega) (n / 10) (n % 10 :: acc) (by omega)]
        rw [ih n (by omega) (n / 10) [n % 10] hdiv]
        simp

lemma natDigits_small (n : Nat) (h : n < 10) : natDigits n = [n] := by
  simp [natDigits, natDigitsCore, if_pos h]

lemma natDigits_large (n : Nat) (h : 10 ≤ n) :
    natDigits n = natDigits (n / 10) ++ [n % 10] := by
  have hdiv : n / 10 < n := Nat.div_lt_self (by omega) (by omega)
  have h1 : natDigits n = natDigitsCore n (n / 10) [n % 10] := by
    simp [natDigits, natDigitsCore, if_neg (by omega : ¬ n < 10)]
  rw [h1, natDigitsCore_spec n (n / 10) [n % 10] hdiv]
  rfl

/-- A two-digit number renders as its two digits. -/
lemma natDigits_two (n : Nat) (h1 : 10 ≤ n) (h2 : n ≤ 99) :
    natDigits n = [n / 10, n % 10] := by
  rw [natDigits_large n h1, natDigits_small (n / 10) (by omega)]
  rfl

/-- A four-digit number renders as its four digits. -/
lemma natDigits_four (n : Nat) (h1 : 1000 ≤ n) (h2 : n ≤ 9999) :
    natDigits n = [n / 1000, n / 100 % 10, n / 10 % 10, n % 10] := by
  rw [natDigits_large n (by omega), natDigits_large (n / 10) (by omega),
    natDigits_large (n / 10 / 10) (by omega),
    natDigits_small (n / 10 / 10 / 10) (by omega)]
  have e1 : n / 10 / 10 = n / 100 := by omega
  have e2 : n / 10 / 10 / 10 = n / 1000 := by omega
  have e3 : n / 10 % 10 = n / 10 % 10 := rfl
  rw [e1]
  rw [show n / 100 / 10 = n / 1000 by omega]
  simp

/-- Embedding of `date_to_week_format` (`app.py`): render the ISO year and the
zero-padded two-digit ISO week of a date as the compact `YYYYWW` digit string.
The source reads `isocalendar()[0]` and `isocalendar()[1]` and formats them
with an f-string of shape year followed by week padded to width 2. -/
def date_to_week_format (dt : Date) : List Nat :=
  natDigits (isocalendarYW dt).1.toNat ++
    (if (isocalendarYW dt).2 < 10 then [0, (isocalendarYW dt).2.toNat]
     else natDigits (isocalendarYW dt).2.toNat)

/-- Embedding of the parsing done in `main` (`app.py`): the first four digits
of a compact week code are read back as the year, the remainder as the week
(`int(code[:4])`, `int(code[4:])`). -/
def parseCompact (s : List Nat) : Nat × Nat :=
  (digitsToNat (s.take 4), digitsToNat (s.drop 4))

/-! Date-range resolution (`calculate_date_range` in `app.py`). -/

/-- Inverse of `toordinal` (the function computed by `datetime.fromordinal`),
used to embed `datetime - timedelta(days=n)`; implemented by the standard era
decomposition of the proleptic Gregorian calendar. -/
def fromOrdinal (n : Int) : Date :=
  let z := n + 305
  let era := z / 146097
  let doe := z - era * 146097
  let yoe := (doe - doe / 1460 + doe / 36524 - doe / 146096) / 365
  let y := yoe + era * 400
  let doy := doe - (365 * yoe + yoe / 4 - yoe / 100)
  let mp := (5 * doy + 2) / 153
  let d := doy - (153 * mp + 2) / 5 + 1
  let m := mp + (if mp < 10 then 3 else -9)
  ⟨y + (if m ≤ 2 then 1 else 0), m, d⟩

/-- Model of Python's `datetime - timedelta(days=n)`. -/
def dateSub (dt : Date) (days : Int) : Date :=
  fromOrdinal (toordinal dt - days)

/-- Embedding of `calculate_date_range` (`app.py`).  The wall-clock value that
the source obtains from `datetime.now()` is passed explicitly as `now`; the
optional custom bounds are the parsed `YYYY-MM-DD` date-picker strings, with
a missing or empty string modelled as `none`.  The result is the pair of
compact week-code strings produced through `date_to_week_format`. -/
def calculate_date_range (now : Date) (period : String)
    (customStart customEnd : Option Date) : List Nat × List Nat :=
  let range : Date × Date :=
    if period = "1년" then (dateSub now 365, now)
    else if period = "3년" then (dateSub now (365 * 3), now)
    else if period = "5년" then (dateSub now (365 * 5), now)
    else if period = "10년" then (dateSub now (365 * 10), now)
    else if period = "사용자 지정" then
      match customStart, customEnd with
      | some s, some e => (s, e)
      | _, _ => (dateSub now 365, now)
    else (dateSub now 365, now)
  (date_to_week_format range.1, date_to_week_format range.2)

/-! Generic list helpers used to embed pandas operations. -/

/-- Insertion step of `sortLe`. -/
def insertLe {α : Type} (le : α → α → Bool) (x : α) : List α → List α
  | [] => [x]
  | y :: ys => if le x y then x :: y :: ys else y :: insertLe le x ys

/-- Insertion sort with respect to a boolean comparison; models
`DataFrame.sort_values` (only the multiset of rows and the ascending order
matter to the properties below, not the tie-breaking of the engine). -/
def sortLe {α : Type} (le : α → α → Bool) : List α → List α
  | [] => []
  | x :: xs => insertLe le x (sortLe le xs)

lemma insertLe_perm {α : Type} (le : α → α → Bool) (x : α) (l : List α) :
    (insertLe le x l).Perm (x :: l) := by
  induction l with
  | nil => simp [insertLe]
  | cons y ys ih =>
    simp only [insertLe]
    split
    · exact List.Perm.refl _
    · exact ((ih.cons y).trans (List.Perm.swap x y ys))

lemma sortLe_perm {α : Type} (le : α → α → Bool) (l : List α) :
    (sortLe le l).Perm l := by
  induction l with
  | nil => simp [sortLe]
  | cons x xs ih =>
    exact (insertLe_perm le x (sortLe le xs)).trans (ih.cons x)

/-- Concatenation of the images of a list under a list-valued function
(the shape of the `heatmap_data` accumulation loop in the source). -/
def listFlat {α β : Type} (f : α → List β) : List α → List β
  | [] => []
  | x :: xs => f x ++ listFlat f xs

lemma listFlat_mem {α β : Type} (f : α → List β) (l : List α) (b : β) :
    b ∈ listFlat f l ↔ ∃ a ∈ l, b ∈ f a := by
  induction l with
  | nil => simp [listFlat]
  | cons x xs ih => simp [listFlat, ih]

lemma listFlat_append {α β : Type} (f : α → List β) (l1 l2 : List α) :
    listFlat f (l1 ++ l2) = listFlat f l1 ++ listFlat f l2 := by
  induction l1 with
  | nil => simp [listFlat]
  | cons x xs ih => simp [listFlat, ih]

/-! Normalization of a per-region series (`create_chart` in `app.py`).

Inside `create_chart`, for each `(region, price type)` pair the masked rows
form one series, already sorted ascending by date by `get_data`.  The block
computes the absolute day distance of every row to the anchor date
(`2022-01-31`), takes `idxmin` (first row attaining the minimal distance),
reads the index value there, and, only when that value is truthy and
positive, rescales the whole series by `value / base_value * 100`. -/

/-- One observation of a per-region series: date (as ordinal day number) and
index value (exact rational in place of the engine's float). -/
structure Obs where
  date : Int
  value : ℚ
deriving DecidableEq

instance : Inhabited Obs := ⟨⟨0, 0⟩⟩

/-- Absolute day distance to the anchor date (the `날짜_diff` column). -/
def dayDist (anchor : Int) (o : Obs) : Nat :=
  (o.date - anchor).natAbs

/-- Position of the first observation with minimal absolute day distance to
the anchor (`idxmin` of the distance column). -/
def baseIdx (anchor : Int) : List Obs → Nat
  | [] => 0
  | [_] => 0
  | o :: o2 :: rest2 =>
    if dayDist anchor o ≤
        dayDist anchor ((o2 :: rest2).getD (baseIdx anchor (o2 :: rest2)) default) then 0
    else baseIdx anchor (o2 :: rest2) + 1

lemma baseIdx_single (anchor : Int) (o : Obs) : baseIdx anchor [o] = 0 := rfl

lemma baseIdx_cons2 (anchor : Int) (o o2 : Obs) (rest2 : List Obs) :
    baseIdx anchor (o :: o2 :: rest2) =
      if dayDist anchor o ≤
          dayDist anchor ((o2 :: rest2).getD (baseIdx anchor (o2 :: rest2)) default) then 0
      else baseIdx anchor (o2 :: rest2) + 1 := by
  rfl

/-- The value at the selected anchor observation (`base_value`). -/
def anchorValue (anchor : Int) (l : List Obs) : ℚ :=
  (l.getD (baseIdx anchor l) default).value

/-- Embedding of the per-series normalization block of `create_chart`: when
the anchor value is positive the series is rescaled to `value / base * 100`,
otherwise (`base_value` zero, hence falsy, or negative) the series is left
untouched.  The Python guard `if base_value and base_value > 0` is equivalent
to `0 < base_value`. -/
def normalizeRegion (anchor : Int) (l : List Obs) : List Obs :=
  match l with
  | [] => []
  | _ :: _ =>
    if 0 < anchorValue anchor l then
      l.map (fun o => ⟨o.date, o.value / anchorValue anchor l * 100⟩)
    else l

/-- The selected anchor position is within the series. -/
lemma baseIdx_lt (anchor : Int) (l : List Obs) (h : l ≠ []) :
    baseIdx anchor l < l.length := by
  induction l with
  | nil => simp at h
  | cons o rest ih =>
    cases rest with
    | nil => simp [baseIdx_single]
    | cons o2 rest2 =>
      rw [baseIdx_cons2]
      by_cases hle : dayDist anchor o ≤
          dayDist anchor ((o2 :: rest2).getD (baseIdx anchor (o2 :: rest2)) default)
      · rw [if_pos hle]; simp
      · rw [if_neg hle]
        have := ih (by simp)
        simpa using Nat.succ_lt_succ this

/-- The anchor observation attains the minimal day distance. -/
lemma baseIdx_min (anchor : Int) (l : List Obs) :
    ∀ j, j < l.length →
      dayDist anchor (l.getD (baseIdx anchor l) default) ≤ dayDist anchor (l.getD j default) := by
  induction l with
  | nil => intro j hj; simp at hj
  | cons o rest ih =>
    intro j hj
    cases rest with
    | nil =>
      have hj0 : j = 0 := by simp at hj; omega
      simp [hj0, baseIdx_single]
    | cons o2 rest2 =>
      rw [baseIdx_cons2]
      by_cases hle : dayDist anchor o ≤
          dayDist anchor ((o2 :: rest2).getD (baseIdx anchor (o2 :: rest2)) default)
      · rw [if_pos hle]
        cases j with
        | zero => simp
        | succ i =>
          have hi : i < (o2 :: rest2).length := by simpa using hj
          have h2 := ih i hi
          simp only [List.getD_cons_zero, List.getD_cons_succ]
          exact le_trans hle h2
      · rw [if_neg hle]
        push_neg at hle
        cases j with
        | zero =>
          simp only [List.getD_cons_zero, List.getD_cons_succ]
          exact le_of_lt hle
        | succ i =>
          have hi : i < (o2 :: rest2).length := by simpa using hj
          have h2 := ih i hi
          simpa using h2

/-- Any position strictly before the anchor has a strictly larger day
distance (the anchor is the first minimiser, as `idxmin` returns the first
row attaining the minimum). -/
lemma baseIdx_first (anchor : Int) (l : List Obs) :
    ∀ j, j < baseIdx anchor l →
      dayDist anchor (l.getD (baseIdx anchor l) default) < dayDist anchor (l.getD j default) := by
  induction l with
  | nil => intro j hj; simp [baseIdx] at hj
  | cons o rest ih =>
    intro j hj
    cases rest with
    | nil => rw [baseIdx_single] at hj; omega
    | cons o2 rest2 =>
      rw [baseIdx_cons2] at hj ⊢
      by_cases hle : dayDist anchor o ≤
          dayDist anchor ((o2 :: rest2).getD (baseIdx anchor (o2 :: rest2)) default)
      · rw [if_pos hle] at hj; omega
      · rw [if_neg hle] at hj ⊢
        push_neg at hle
        cases j with
        | zero =>
          simpa using hle
        | succ i =>
          have hi : i < baseIdx anchor (o2 :: rest2) := by omega
          have h2 := ih i hi
          simpa using h2

/-! Change-rate heatmap (`_create_single_heatmap` in `app.py`). -/

/-- A float cell value: an exact rational, or one of the IEEE special values
that pandas produces for zero denominators (`inf`, `-inf`, `NaN`). -/
inductive Val where
  | fin : ℚ → Val
  | inf : Val
  | negInf : Val
  | nan : Val
deriving DecidableEq

instance : Inhabited Val := ⟨Val.nan⟩

/-- One cell of `pct_change`: IEEE semantics of `cur / prev - 1` for finite
rational inputs (division by zero yields `inf`, `-inf` or `NaN`). -/
def pctCell (prev cur : ℚ) : Val :=
  if prev = 0 then
    (if cur = 0 then Val.nan else if 0 < cur then Val.inf else Val.negInf)
  else Val.fin (cur / prev - 1)

/-- Multiplication of a cell by 100 (`* 100` on the rate column; the special
values are absorbing). -/
def valMul100 : Val → Val
  | Val.fin q => Val.fin (q * 100)
  | Val.inf => Val.inf
  | Val.negInf => Val.negInf
  | Val.nan => Val.nan

/-- `fillna(0)`: only `NaN` is replaced by 0; infinities pass through. -/
def fillna0 : Val → Val
  | Val.nan => Val.fin 0
  | v => v

/-- Tail of the step-mode pipeline: for each value, the previous value's
`pct_change` cell, times 100, with `NaN` filled by 0. -/
def stepRatesAux (prev : ℚ) : List ℚ → List Val
  | [] => []
  | c :: rest => fillna0 (valMul100 (pctCell prev c)) :: stepRatesAux c rest

/-- Embedding of the step-mode ("전주 변동률") rate column:
`region_data['지수'].pct_change() * 100` followed by `.fillna(0)`.  The first
cell is `NaN` (no previous row) and becomes 0 through `fillna`. -/
def stepRates (values : List ℚ) : List Val :=
  match values with
  | [] => []
  | v0 :: rest => fillna0 (valMul100 Val.nan) :: stepRatesAux v0 rest

/-- One row of the data frame handed to `_create_single_heatmap`: region
name, observation date and index value (the frame was already filtered to a
single price type by the caller, so the series kind is implicit). -/
structure Row where
  region : String
  date : Int
  value : ℚ
deriving DecidableEq

instance : Inhabited Row := ⟨⟨"", 0, 0⟩⟩

/-- One entry of the long-format rate frame (`날짜`, `지역`, `변화율`). -/
structure RateCell where
  region : String
  date : Int
  rate : Val
deriving DecidableEq

/-- The pivot key of a rate entry (`지역` row label and `날짜` column label). -/
def keyOf (c : RateCell) : String × Int := (c.region, c.date)

/-- Sort rows of one region ascending by date (`sort_values('날짜')`). -/
def sortByDate (l : List Row) : List Row :=
  sortLe (fun a b => decide (a.date ≤ b.date)) l

/-- Cumulative-mode ("누적 변화율") rate rows of one region's sorted data:
rates relative to the first index value, produced only when that value is
truthy and positive (`if base_index and base_index > 0`), otherwise the
region contributes no rows. -/
def cumulativeCells (r : String) (rd : List Row) : List RateCell :=
  match rd with
  | [] => []
  | first :: _ =>
    if 0 < first.value then
      rd.map (fun row => ⟨r, row.date, Val.fin ((row.value - first.value) / first.value * 100)⟩)
    else []

/-- Step-mode rate rows of one region's sorted data: dates paired with the
`pct_change`-based rate column. -/
def stepCells (r : String) (rd : List Row) : List RateCell :=
  List.zipWith (fun row v => ⟨r, row.date, v⟩) rd (stepRates (rd.map (fun row => row.value)))

/-- Rate rows contributed by one region: filter the frame to the region,
sort by date, and (for a non-empty result) apply the selected mode. -/
def regionRateCells (cumulative : Bool) (r : String) (df : List Row) : List RateCell :=
  let rd := sortByDate (df.filter (fun row => row.region == r))
  match rd with
  | [] => []
  | _ :: _ => if cumulative then cumulativeCells r rd else stepCells r rd

/-- The concatenated `heatmap_data` list: rate rows of every requested
region, in the requested region order. -/
def heatmapData (cumulative : Bool) (regions : List String) (df : List Row) : List RateCell :=
  listFlat (fun r => regionRateCells cumulative r df) regions

/-- The pivot-and-reindex step: distinct dates become columns, and every
requested region becomes a row (in the requested order, missing regions
giving all-empty rows), with each cell looked up among the rate rows. -/
def pivotReindex (cells : List RateCell) (regions : List String) :
    List (String × List (Option Val)) :=
  let cols := sortLe (fun a b => decide (a ≤ b)) (cells.map (fun c => c.date)).dedup
  regions.map (fun r =>
    (r, cols.map (fun d => (cells.find? (fun c => c.region == r && c.date == d)).map
      (fun c => c.rate))))

/-- Embedding of the matrix construction of `_create_single_heatmap`: if no
region contributed rate rows the function warns and returns without a matrix
(`Except.ok none`); otherwise `DataFrame.pivot` either raises a `ValueError`
on duplicate `(region, date)` keys (`Except.error ()`) or produces the
reindexed matrix. -/
def heatmapMatrix (cumulative : Bool) (regions : List String) (df : List Row) :
    Except Unit (Option (List (String × List (Option Val)))) :=
  if heatmapData cumulative regions df = [] then Except.ok none
  else if ((heatmapData cumulative regions df).map keyOf).Nodup then
    Except.ok (some (pivotReindex (heatmapData cumulative regions df) regions))
  else Except.error ()

/-! Ingestion of raw API rows (`PriceIndexAPI.get_data` in `app.py`). -/

/-- One raw row of an API response after the two coercions
(`pd.to_datetime(..., errors='coerce')` and
`pd.to_numeric(..., errors='coerce')`): an unparseable date or value is the
missing marker `none` (`NaT`/`NaN`). -/
structure RawRow where
  dateOpt : Option Int
  valueOpt : Option ℚ
deriving DecidableEq

/-- Date-ascending comparison with missing dates ordered last (the placement
pandas gives `NaT` under `sort_values`). -/
def rawLe (a b : RawRow) : Bool :=
  match a.dateOpt, b.dateOpt with
  | some x, some y => decide (x ≤ y)
  | some _, none => true
  | none, some _ => false
  | none, none => true

/-- A raw row parses to an observation only when both fields are present. -/
def parseRaw (r : RawRow) : Option Obs :=
  match r.dateOpt, r.valueOpt with
  | some d, some v => some ⟨d, v⟩
  | _, _ => none

/-- Embedding of the row-processing tail of `PriceIndexAPI.get_data`: the
response rows are sorted ascending by date (`sort_values('날짜')`) and rows
with a missing date or value are dropped (`dropna(subset=['날짜', '지수'])`).
No deduplication is performed anywhere in the pipeline. -/
def processRows (rows : List RawRow) : List Obs :=
  (sortLe rawLe rows).filterMap parseRaw

/-! Theorems about the claims. -/

/-- When the anchor value is positive the whole series is rescaled. -/
lemma normalizeRegion_pos (anchor : Int) (l : List Obs) (hne : l ≠ [])
    (hpos : 0 < anchorValue anchor l) :
    normalizeRegion anchor l =
      l.map (fun o => ⟨o.date, o.value / anchorValue anchor l * 100⟩) := by
  cases l with
  | nil => simp at hne
  | cons o rest =>
    simp only [normalizeRegion]
    rw [if_pos hpos]

/-- When the anchor value is not positive the series is returned unchanged. -/
lemma normalizeRegion_nonpos (anchor : Int) (l : List Obs)
    (h : ¬ 0 < anchorValue anchor l) :
    normalizeRegion anchor l = l := by
  cases l with
  | nil => simp [normalizeRegion]
  | cons o rest =>
    simp only [normalizeRegion]
    rw [if_neg h]

/-- C1: for every non-empty per-region series sorted ascending by date and
every anchor date, the normalization block of `create_chart` selects as
anchor the observation with minimal absolute day distance to the anchor date
(ties broken by the earliest such date), and — when the anchor value is
positive, the only case in which the source rescales at all — rebases every
point to `value / anchorValue * 100`, so the anchor point itself maps to
exactly 100. -/
theorem C1_anchor_normalization (anchor : Int) (l : List Obs) (hne : l ≠ [])
    (hsorted : l.Pairwise (fun a b => a.date ≤ b.date))
    (hpos : 0 < anchorValue anchor l) :
    (∀ j, j < l.length →
        dayDist anchor (l.getD (baseIdx anchor l) default) ≤
          dayDist anchor (l.getD j default)) ∧
    (∀ j, j < l.length →
        dayDist anchor (l.getD j default) = dayDist anchor (l.getD (baseIdx anchor l) default) →
        (l.getD (baseIdx anchor l) default).date ≤ (l.getD j default).date) ∧
    (normalizeRegion anchor l).length = l.length ∧
    (∀ j, j < l.length →
        (normalizeRegion anchor l).getD j default =
          ⟨(l.getD j default).date, (l.getD j default).value / anchorValue anchor l * 100⟩) ∧
    ((normalizeRegion anchor l).getD (baseIdx anchor l) default).value = 100 := by
  have hblt := baseIdx_lt anchor l hne
  have hmap := normalizeRegion_pos anchor l hne hpos
  refine ⟨baseIdx_min anchor l, ?_, ?_, ?_, ?_⟩
  · intro j hj heq
    rcases Nat.lt_or_ge j (baseIdx anchor l) with hlt | hge
    · have := baseIdx_first anchor l j hlt
      omega
    · rcases Nat.eq_or_lt_of_le hge with heqj | hltj
      · rw [← heqj]
      · have hpw := List.pairwise_iff_getElem.mp hsorted (baseIdx anchor l) j hblt hj hltj
        rw [List.getD_eq_getElem l default hblt, List.getD_eq_getElem l default hj]
        exact hpw
  · rw [hmap, List.length_map]
  · intro j hj
    rw [hmap]
    rw [List.getD_eq_getElem _ default (by simpa using hj),
      List.getD_eq_getElem l default hj, List.getElem_map]
  · have hj := hblt
    rw [hmap]
    rw [List.getD_eq_getElem _ default (by simpa using hj)]
    rw [List.getElem_map]
    show (l[baseIdx anchor l]).value / anchorValue anchor l * 100 = 100
    have : (l[baseIdx anchor l]).value = anchorValue anchor l := by
      unfold anchorValue
      rw [List.getD_eq_getElem l default hj]
    rw [this, div_self (ne_of_gt hpos), one_mul]

/-- C1 witness: a concrete two-point series with anchor date 1; the first
point (distance 1) is selected over the second (distance 9) and maps to 100. -/
theorem C1_anchor_normalization_witness :
    ((normalizeRegion 1 [⟨0, 5⟩, ⟨10, 2⟩]).getD (baseIdx 1 [⟨0, 5⟩, ⟨10, 2⟩]) default).value
      = 100 :=
  (C1_anchor_normalization 1 [⟨0, 5⟩, ⟨10, 2⟩] (by decide) (by decide) (by decide)).2.2.2.2

/-- C5: when the selected anchor value is zero or negative (for example for
an all-zero series), the series is left unnormalized — the guard
`if base_value and base_value > 0` skips the rescaling, so the original
values are returned unchanged and no division is performed at all (hence no
infinite or undefined indexed values can appear). -/
theorem C5_invalid_anchor_fails_closed (anchor : Int) (l : List Obs)
    (h : anchorValue anchor l ≤ 0) :
    normalizeRegion anchor l = l :=
  normalizeRegion_nonpos anchor l (not_lt.mpr h)

/-- C5 witness: an all-zero two-point series is returned unchanged. -/
theorem C5_invalid_anchor_fails_closed_witness :
    normalizeRegion 3 [⟨0, 0⟩, ⟨7, 0⟩] = [⟨0, 0⟩, ⟨7, 0⟩] :=
  C5_invalid_anchor_fails_closed 3 [⟨0, 0⟩, ⟨7, 0⟩] (by decide)

/-- C2: for every region series whose first (base) value is positive,
cumulative mode produces `changeRate[i] = (value[i] - value[0]) / value[0] * 100`
for every point; when the base value is zero or negative the region yields no
rate rows at all (the guard skips the region without raising). -/
theorem C2_cumulative_rates (r : String) (first : Row) (rest : List Row) :
    (0 < first.value →
      (cumulativeCells r (first :: rest)).map (fun c => c.rate) =
        (first :: rest).map
          (fun row => Val.fin ((row.value - first.value) / first.value * 100))) ∧
    (first.value ≤ 0 → cumulativeCells r (first :: rest) = []) := by
  constructor
  · intro hpos
    simp only [cumulativeCells]
    rw [if_pos hpos]
    simp [List.map_map, Function.comp]
  · intro hle
    simp only [cumulativeCells]
    rw [if_neg (not_lt.mpr hle)]

/-- C2 witness: the series `[100, 110, 99]` with base 100 yields the
cumulative rates `[0, 10, -1]`. -/
theorem C2_cumulative_rates_witness :
    (cumulativeCells "A" [⟨"A", 0, 100⟩, ⟨"A", 1, 110⟩, ⟨"A", 2, 99⟩]).map (fun c => c.rate)
      = [Val.fin 0, Val.fin 10, Val.fin (-1)] := by
  have h := (C2_cumulative_rates "A" ⟨"A", 0, 100⟩ [⟨"A", 1, 110⟩, ⟨"A", 2, 99⟩]).1
    (by norm_num)
  rw [h]
  norm_num

lemma stepRatesAux_getD (l : List ℚ) :
    ∀ (prev : ℚ) (i : Nat), i < l.length →
      (stepRatesAux prev l).getD i default =
        fillna0 (valMul100 (pctCell ((prev :: l).getD i 0) (l.getD i 0))) := by
  induction l with
  | nil => intro prev i hi; simp at hi
  | cons c rest ih =>
    intro prev i hi
    cases i with
    | zero => simp [stepRatesAux]
    | succ j =>
      have hj : j < rest.length := by simpa using hi
      simpa [stepRatesAux] using ih c j hj

lemma stepRatesAux_length (prev : ℚ) (l : List ℚ) :
    (stepRatesAux prev l).length = l.length := by
  induction l generalizing prev with
  | nil => simp [stepRatesAux]
  | cons c rest ih => simp [stepRatesAux, ih]

lemma stepRates_length (values : List ℚ) : (stepRates values).length = values.length := by
  cases values with
  | nil => simp [stepRates]
  | cons v0 rest => simp [stepRates, stepRatesAux_length]

/-- C3 (amended): step mode produces `changeRate[0] = 0` and, for `i > 0`
with a non-zero previous value,
`changeRate[i] = (value[i] - value[i-1]) / value[i-1] * 100`; but when the
previous value is zero the cell is NOT omitted: `pct_change` produces an IEEE
infinity (positive or negative according to the sign of `value[i]`), and a
`0/0` cell becomes `NaN` and is turned into 0 by `fillna(0)`. -/
theorem C3_step_rates (values : List ℚ) (hne : values ≠ []) :
    (stepRates values).length = values.length ∧
    (stepRates values).getD 0 default = Val.fin 0 ∧
    (∀ i, i + 1 < values.length →
      (values.getD i 0 ≠ 0 →
        (stepRates values).getD (i + 1) default =
          Val.fin ((values.getD (i + 1) 0 - values.getD i 0) / values.getD i 0 * 100)) ∧
      (values.getD i 0 = 0 →
        (stepRates values).getD (i + 1) default =
          (if values.getD (i + 1) 0 = 0 then Val.fin 0
           else if 0 < values.getD (i + 1) 0 then Val.inf else Val.negInf))) := by
  cases values with
  | nil => simp at hne
  | cons v0 rest =>
    refine ⟨stepRates_length _, by simp [stepRates, fillna0, valMul100], ?_⟩
    intro i hi
    have hir : i < rest.length := by simpa using hi
    have hstep : (stepRates (v0 :: rest)).getD (i + 1) default =
        fillna0 (valMul100 (pctCell ((v0 :: rest).getD i 0) (rest.getD i 0))) := by
      simp only [stepRates, List.getD_cons_succ]
      exact stepRatesAux_getD rest v0 i hir
    have hval : rest.getD i 0 = (v0 :: rest).getD (i + 1) 0 := by simp
    constructor
    · intro hprev
      rw [hstep, hval]
      simp only [pctCell, if_neg hprev, valMul100, fillna0]
      rw [div_sub_one hprev]
    · intro hprev
      rw [hstep, hval]
      simp only [pctCell, if_pos hprev]
      split_ifs <;> simp [valMul100, fillna0]

/-- C3 witness: the series `[100, 110, 99]` yields step rates `[0, 10, -10]`. -/
theorem C3_step_rates_witness :
    (stepRates [100, 110, 99]).getD 0 default = Val.fin 0 ∧
    (stepRates [100, 110, 99]).getD 1 default = Val.fin 10 ∧
    (stepRates [100, 110, 99]).getD 2 default = Val.fin (-10) := by
  have h := C3_step_rates [100, 110, 99] (by decide)
  refine ⟨h.2.1, ?_, ?_⟩
  · have h1 := (h.2.2 0 (by norm_num)).1 (by norm_num)
    rw [h1]
    norm_num
  · have h2 := (h.2.2 1 (by norm_num)).1 (by norm_num)
    rw [h2]
    norm_num

/-- C3 counterexample: with a zero previous value and a positive current
value the step-mode cell is present and equals positive infinity — it is not
omitted, contradicting the claim that a zero denominator leads to an
omitted/undefined cell rather than an infinity. -/
theorem C3_step_rates_counterexample :
    stepRates [0, 5] = [Val.fin 0, Val.inf] ∧ (stepRates [0, 5]).length = 2 := by
  constructor
  · simp [stepRates, stepRatesAux, pctCell, valMul100, fillna0]
  · rfl

/-- C6 (amended): the ingestion pipeline performs no deduplication — every
successfully parsed row is retained (as a multiset), so a second observation
with the same date and a different value is appended to the store rather than
ignored. -/
theorem C6_no_dedup (rows : List RawRow) :
    (processRows rows).Perm (rows.filterMap parseRaw) :=
  (sortLe_perm rawLe rows).filterMap parseRaw

/-- C6 counterexample: two source rows with the same date and different
values are both stored — the second insert does not leave the store
unchanged, and the series contains two points for that date, not exactly
one. -/
theorem C6_counterexample :
    processRows [⟨some 10, some 1⟩, ⟨some 10, some 2⟩] = [⟨10, 1⟩, ⟨10, 2⟩] ∧
    ((processRows [⟨some 10, some 1⟩, ⟨some 10, some 2⟩]).filter
        (fun o => o.date == 10)).length ≠ 1 := by
  decide

/-- C7: for every valid calendar date, the week-code conversion uses the
date's own ISO calendar pair — the date lies inside the 7-day window of the
returned ISO week of the returned ISO year — and in particular 2024-12-31
and 2025-01-01 both resolve to ISO `(2025, 1)` (for 2024-12-31 the ISO year
differs from the plain calendar year), so both render as the same compact
code `202501`. -/
theorem C7_iso_week_code (dt : Date) (h : validDate dt) :
    (isoweek1monday (isocalendarYW dt).1 + 7 * ((isocalendarYW dt).2 - 1) ≤ toordinal dt ∧
      toordinal dt ≤ isoweek1monday (isocalendarYW dt).1 + 7 * ((isocalendarYW dt).2 - 1) + 6) ∧
    isocalendarYW ⟨2024, 12, 31⟩ = (2025, 1) ∧
    (isocalendarYW ⟨2024, 12, 31⟩).1 ≠ 2024 ∧
    isocalendarYW ⟨2025, 1, 1⟩ = (2025, 1) ∧
    date_to_week_format ⟨2024, 12, 31⟩ = [2, 0, 2, 5, 0, 1] ∧
    date_to_week_format ⟨2025, 1, 1⟩ = [2, 0, 2, 5, 0, 1] :=
  ⟨isocalendar_week_window dt h, by decide, by decide, by decide, by decide, by decide⟩

/-- C7 witness: the boundary date 2024-12-31 instantiates the theorem. -/
theorem C7_iso_week_code_witness :
    isocalendarYW ⟨2024, 12, 31⟩ = (2025, 1) :=
  (C7_iso_week_code ⟨2024, 12, 31⟩ (by decide)).2.1

/-- C8: for every valid date whose ISO year has four digits, rendering the
week code as the compact string (year digits followed by the zero-padded
two-digit week) and parsing it back (year from the first four characters,
week from the rest) recovers exactly the ISO `(year, week)` pair of the
original conversion. -/
theorem C8_week_code_roundtrip (dt : Date) (h : validDate dt)
    (hy1 : 1000 ≤ (isocalendarYW dt).1) (hy2 : (isocalendarYW dt).1 ≤ 9999) :
    parseCompact (date_to_week_format dt) =
      ((isocalendarYW dt).1.toNat, (isocalendarYW dt).2.toNat) := by
  have hb := isocalendar_week_bounds dt h
  have hYt1 : 1000 ≤ (isocalendarYW dt).1.toNat := by omega
  have hYt2 : (isocalendarYW dt).1.toNat ≤ 9999 := by omega
  have hfour := natDigits_four _ hYt1 hYt2
  unfold date_to_week_format parseCompact
  by_cases hW : (isocalendarYW dt).2 < 10
  · rw [if_pos hW, hfour]
    simp only [List.cons_append, List.nil_append, List.take, List.drop]
    simp only [digitsToNat, List.foldl, Prod.mk.injEq]
    constructor <;> omega
  · rw [if_neg hW, hfour]
    have hWt1 : 10 ≤ (isocalendarYW dt).2.toNat := by omega
    have hWt2 : (isocalendarYW dt).2.toNat ≤ 99 := by omega
    rw [natDigits_two _ hWt1 hWt2]
    simp only [List.cons_append, List.nil_append, List.take, List.drop]
    simp only [digitsToNat, List.foldl, Prod.mk.injEq]
    constructor <;> omega

/-- C8 witness: the date 2025-12-26 round-trips to `(2025, 52)`. -/
theorem C8_week_code_roundtrip_witness :
    parseCompact (date_to_week_format ⟨2025, 12, 26⟩) = (2025, 52) := by
  have h := C8_week_code_roundtrip ⟨2025, 12, 26⟩ (by decide) (by decide) (by decide)
  rw [h]
  decide

/-- C9 (amended): the fixed periods resolve to `start = now - N*365 days`,
`end = now`, Custom with a missing bound falls back to the one-year
behaviour, and the returned week codes are computed from those exact dates;
for `now = 2025-12-26` the one-year start is 2024-12-26 (365 days earlier;
no leap day lies in between), not 2024-12-27, and the codes are
`(202452, 202552)`. -/
theorem C9_date_range (now : Date) (customStart customEnd : Option Date) :
    (calculate_date_range now "1년" customStart customEnd =
      (date_to_week_format (dateSub now 365), date_to_week_format now)) ∧
    (calculate_date_range now "3년" customStart customEnd =
      (date_to_week_format (dateSub now (365 * 3)), date_to_week_format now)) ∧
    (calculate_date_range now "5년" customStart customEnd =
      (date_to_week_format (dateSub now (365 * 5)), date_to_week_format now)) ∧
    (calculate_date_range now "10년" customStart customEnd =
      (date_to_week_format (dateSub now (365 * 10)), date_to_week_format now)) ∧
    (calculate_date_range now "사용자 지정" none customEnd =
      calculate_date_range now "1년" none none) ∧
    (calculate_date_range now "사용자 지정" customStart none =
      calculate_date_range now "1년" none none) ∧
    (calculate_date_range ⟨2025, 12, 26⟩ "1년" none none =
      ([2, 0, 2, 4, 5, 2], [2, 0, 2, 5, 5, 2])) ∧
    dateSub ⟨2025, 12, 26⟩ 365 = ⟨2024, 12, 26⟩ := by
  refine ⟨rfl, rfl, rfl, rfl, ?_, ?_, by decide, by decide⟩
  · cases customEnd <;> rfl
  · cases customStart <;> rfl

/-- C9 counterexample: the claim's concrete instance is off by one day — 365
days before 2025-12-26 is 2024-12-26 (the interval contains no leap day),
not 2024-12-27 as claimed.  The resulting week code is nevertheless the same
(`202452`), both dates falling in ISO week 52 of 2024. -/
theorem C9_date_range_counterexample :
    dateSub ⟨2025, 12, 26⟩ 365 = ⟨2024, 12, 26⟩ ∧
    dateSub ⟨2025, 12, 26⟩ 365 ≠ ⟨2024, 12, 27⟩ := by
  decide

/-! Structural lemmas about the heatmap construction. -/

lemma zipWith_cell_region (r : String) :
    ∀ (rd : List Row) (ss : List Val) (c : RateCell),
      c ∈ List.zipWith (fun row v => (⟨r, row.date, v⟩ : RateCell)) rd ss → c.region = r := by
  intro rd
  induction rd with
  | nil => intro ss c hc; simp at hc
  | cons row rest ih =>
    intro ss c hc
    cases ss with
    | nil => simp at hc
    | cons v vs =>
      simp only [List.zipWith, List.mem_cons] at hc
      rcases hc with hc | hc
      · rw [hc]
      · exact ih vs c hc

lemma zipWith_cell_keys (r : String) :
    ∀ (rd : List Row) (ss : List Val), ss.length = rd.length →
      (List.zipWith (fun row v => (⟨r, row.date, v⟩ : RateCell)) rd ss).map keyOf =
        rd.map (fun row => ((r, row.date) : String × Int)) := by
  intro rd
  induction rd with
  | nil => intro ss _; simp
  | cons row rest ih =>
    intro ss hlen
    cases ss with
    | nil => simp at hlen
    | cons v vs =>
      simp only [List.zipWith, List.map_cons, keyOf]
      rw [ih vs (by simpa using hlen)]

lemma stepCells_keys (r : String) (rd : List Row) :
    (stepCells r rd).map keyOf = rd.map (fun row => ((r, row.date) : String × Int)) := by
  unfold stepCells
  exact zipWith_cell_keys r rd _ (by rw [stepRates_length, List.length_map])

lemma cumulativeCells_keys (r : String) (first : Row) (rest : List Row)
    (hpos : 0 < first.value) :
    (cumulativeCells r (first :: rest)).map keyOf =
      (first :: rest).map (fun row => ((r, row.date) : String × Int)) := by
  simp only [cumulativeCells]
  rw [if_pos hpos]
  simp [List.map_map, keyOf, Function.comp]

/-- Keys of one region's rate rows with `(region, date)` pairs are `Nodup`
exactly when the region's date column is. -/
lemma pair_keys_nodup_iff (r : String) (rd : List Row) :
    (rd.map (fun row => ((r, row.date) : String × Int))).Nodup ↔
      (rd.map (fun row => row.date)).Nodup := by
  constructor
  · intro h
    have h2 : ((rd.map (fun row => row.date)).map (Prod.mk r)).Nodup := by
      rw [List.map_map]
      exact h
    exact h2.of_map _
  · intro h
    have h2 := List.Nodup.map (f := Prod.mk r)
      (fun a b hab => by simpa using hab) h
    rw [List.map_map] at h2
    exact h2

/-- Every rate row of a region carries that region's name, and a region that
contributes at least one rate row has at least one data-frame row. -/
lemma regionRateCells_mem (cumulative : Bool) (r : String) (df : List Row) (c : RateCell)
    (hc : c ∈ regionRateCells cumulative r df) :
    c.region = r ∧ ∃ row ∈ df, row.region = r := by
  unfold regionRateCells at hc
  rcases hrd : sortByDate (df.filter (fun row => row.region == r)) with _ | ⟨first, rest⟩
  · rw [hrd] at hc
    simp at hc
  · rw [hrd] at hc
    dsimp only at hc
    have hfirst : first ∈ df.filter (fun row => row.region == r) := by
      have hmem : first ∈ sortByDate (df.filter (fun row => row.region == r)) := by
        rw [hrd]; exact List.mem_cons_self _ _
      exact ((sortLe_perm _ _).mem_iff).mp hmem
    have hrow : first ∈ df ∧ first.region = r := by
      have := List.mem_filter.mp hfirst
      exact ⟨this.1, by simpa using this.2⟩
    refine ⟨?_, first, hrow.1, hrow.2⟩
    by_cases hcum : cumulative
    · rw [if_pos hcum] at hc
      simp only [cumulativeCells] at hc
      split_ifs at hc
      · rcases List.mem_map.mp hc with ⟨row, _, hrow2⟩
        rw [← hrow2]
      · simp at hc
    · rw [if_neg hcum] at hc
      exact zipWith_cell_region r _ _ c hc

/-- The keys of one region's rate rows: either no rows at all, or exactly the
`(region, date)` pairs of the region's sorted data. -/
lemma regionRateCells_keys_cases (cumulative : Bool) (r : String) (df : List Row) :
    (regionRateCells cumulative r df).map keyOf = [] ∨
    (regionRateCells cumulative r df).map keyOf =
      (sortByDate (df.filter (fun row => row.region == r))).map
        (fun row => ((r, row.date) : String × Int)) := by
  unfold regionRateCells
  rcases hrd : sortByDate (df.filter (fun row => row.region == r)) with _ | ⟨first, rest⟩
  · left; rfl
  · dsimp only
    by_cases hcum : cumulative
    · rw [if_pos hcum]
      by_cases hpos : 0 < first.value
      · right; exact cumulativeCells_keys r first rest hpos
      · left
        simp only [cumulativeCells]
        rw [if_neg hpos]
        rfl
    · rw [if_neg hcum]
      right; exact stepCells_keys r _

/-- With a duplicate-free date column for the region, the region's rate-row
keys are duplicate-free. -/
lemma regionRateCells_keys_nodup (cumulative : Bool) (r : String) (df : List Row)
    (hdates : ((df.filter (fun row => row.region == r)).map (fun row => row.date)).Nodup) :
    ((regionRateCells cumulative r df).map keyOf).Nodup := by
  rcases regionRateCells_keys_cases cumulative r df with h | h
  · rw [h]; exact List.nodup_nil
  · rw [h, pair_keys_nodup_iff]
    have hperm := (sortLe_perm (fun a b => decide (a.date ≤ b.date))
      (df.filter (fun row => row.region == r))).map (fun row => row.date)
    exact (hperm.nodup_iff).mpr hdates

/-- Every rate-row key of a region carries that region's name. -/
lemma regionRateCells_keys_fst (cumulative : Bool) (r : String) (df : List Row)
    (k : String × Int) (hk : k ∈ (regionRateCells cumulative r df).map keyOf) :
    k.1 = r := by
  rcases List.mem_map.mp hk with ⟨c, hc, hkey⟩
  rw [← hkey]
  exact (regionRateCells_mem cumulative r df c hc).1

/-- With pairwise-distinct requested regions and duplicate-free date columns,
the combined rate rows have duplicate-free pivot keys. -/
lemma heatmapData_keys_nodup (cumulative : Bool) (regions : List String) (df : List Row)
    (hreg : regions.Nodup)
    (hdates : ∀ r, ((df.filter (fun row => row.region == r)).map (fun row => row.date)).Nodup) :
    ((heatmapData cumulative regions df).map keyOf).Nodup := by
  induction regions with
  | nil => simp [heatmapData, listFlat]
  | cons r rest ih =>
    have hsplit : heatmapData cumulative (r :: rest) df =
        regionRateCells cumulative r df ++ heatmapData cumulative rest df := rfl
    rw [hsplit, List.map_append, List.nodup_append]
    obtain ⟨hnotmem, hrest⟩ := List.nodup_cons.mp hreg
    refine ⟨regionRateCells_keys_nodup cumulative r df (hdates r), ih hrest, ?_⟩
    intro k hk1 hk2
    have h1 : k.1 = r := regionRateCells_keys_fst cumulative r df k hk1
    rcases List.mem_map.mp hk2 with ⟨c, hc, hkey⟩
    rcases (listFlat_mem _ rest c).mp hc with ⟨r2, hr2, hcr2⟩
    have h2 : k.1 = r2 := by
      rw [← hkey]
      exact (regionRateCells_mem cumulative r2 df c hcr2).1
    exact hnotmem (by rw [← h1, h2]; exact hr2)

/-- Splitting the combined rate rows at one requested region. -/
lemma heatmapData_decomp (cumulative : Bool) (df : List Row) (s t : List String) (r : String) :
    heatmapData cumulative (s ++ r :: t) df =
      heatmapData cumulative s df ++
        (regionRateCells cumulative r df ++ heatmapData cumulative t df) := by
  unfold heatmapData
  rw [listFlat_append]
  rfl

/-- C4 (amended): provided at least one requested region yields rate rows and
the rate rows have duplicate-free `(region, date)` keys (so that the pivot
does not raise), the constructed matrix has as row labels exactly the
requested regions in the requested order, and a requested region with no
data-frame rows gets an all-empty row — never a missing row. -/
theorem C4_matrix_rows (cumulative : Bool) (regions : List String) (df : List Row)
    (hne : heatmapData cumulative regions df ≠ [])
    (hnodup : ((heatmapData cumulative regions df).map keyOf).Nodup) :
    ∃ m, heatmapMatrix cumulative regions df = Except.ok (some m) ∧
      m.map Prod.fst = regions ∧
      ∀ p ∈ m, (∀ row ∈ df, row.region ≠ p.1) → ∀ c ∈ p.2, c = none := by
  refine ⟨pivotReindex (heatmapData cumulative regions df) regions, ?_, ?_, ?_⟩
  · unfold heatmapMatrix
    rw [if_neg hne, if_pos hnodup]
  · unfold pivotReindex
    rw [List.map_map]
    exact List.map_id regions
  · intro p hp hnorow c hc
    unfold pivotReindex at hp
    rcases List.mem_map.mp hp with ⟨r, hr, hpr⟩
    rcases List.mem_map.mp (by rw [← hpr] at hc; exact hc) with ⟨d, hd, hcd⟩
    rw [← hcd]
    have hfind : (heatmapData cumulative regions df).find?
        (fun cell => cell.region == r && cell.date == d) = none := by
      apply List.find?_eq_none.mpr
      intro cell hcell hpred
      rcases (listFlat_mem _ regions cell).mp hcell with ⟨r2, _, hcr2⟩
      obtain ⟨hregion, row, hrowdf, hrowreg⟩ := regionRateCells_mem cumulative r2 df cell hcr2
      have hcellr : cell.region = r := by
        have := (Bool.and_eq_true _ _).mp hpred
        exact eq_of_beq this.1
      have : row.region = p.1 := by
        rw [hrowreg, ← hregion, hcellr, ← hpr]
      exact hnorow row hrowdf this
    dsimp only
    rw [hfind]
    rfl

/-- C4 witness: regions A and B where only A has an observation — the matrix
exists, has rows exactly A then B, and B's row is all-empty. -/
theorem C4_matrix_rows_witness :
    ∃ m, heatmapMatrix true ["A", "B"] [⟨"A", 0, 100⟩] = Except.ok (some m) ∧
      m.map Prod.fst = ["A", "B"] ∧
      ∀ p ∈ m, (∀ row ∈ [(⟨"A", 0, 100⟩ : Row)], row.region ≠ p.1) → ∀ c ∈ p.2, c = none :=
  C4_matrix_rows true ["A", "B"] [⟨"A", 0, 100⟩] (by decide) (by decide)

/-- C4 counterexample: when no requested region yields any usable rate rows
(here: an empty data frame), the construction does not return a matrix at all
— it warns and returns early (`Except.ok none`), so no all-empty row for the
requested region exists. -/
theorem C4_matrix_rows_counterexample :
    heatmapMatrix true ["A"] [] = Except.ok none := by
  rfl

/-- C10 (amended): the pivot step is partial on duplicate keys — but only
when the duplicate survives into the rate rows.  If a requested region's date
column contains a duplicate and the region actually contributes rows (always
in step mode; in cumulative mode when its first sorted value is positive),
construction raises (`Except.error ()`).  Conversely, for pairwise-distinct
requested regions whose date columns are duplicate-free, construction never
raises. -/
theorem C10_pivot_partiality (cumulative : Bool) (regions : List String) (df : List Row) :
    (∀ r ∈ regions,
      ¬ ((df.filter (fun row => row.region == r)).map (fun row => row.date)).Nodup →
      (cumulative = true →
        0 < ((sortByDate (df.filter (fun row => row.region == r))).headD default).value) →
      heatmapMatrix cumulative regions df = Except.error ()) ∧
    (regions.Nodup →
      (∀ r, ((df.filter (fun row => row.region == r)).map (fun row => row.date)).Nodup) →
      ∃ res, heatmapMatrix cumulative regions df = Except.ok res) := by
  constructor
  · intro r hr hdup hmode
    obtain ⟨s, t, rfl⟩ := List.append_of_mem hr
    have hperm := (sortLe_perm (fun a b => decide (a.date ≤ b.date))
      (df.filter (fun row => row.region == r))).map (fun row => row.date)
    have hdup2 : ¬ ((sortByDate (df.filter (fun row => row.region == r))).map
        (fun row => row.date)).Nodup := by
      intro hcon
      exact hdup ((hperm.nodup_iff).mp hcon)
    rcases hrd : sortByDate (df.filter (fun row => row.region == r)) with _ | ⟨first, rest⟩
    · rw [hrd] at hdup2
      simp at hdup2
    · have hkeys : (regionRateCells cumulative r df).map keyOf =
          (first :: rest).map (fun row => ((r, row.date) : String × Int)) := by
        unfold regionRateCells
        rw [hrd]
        dsimp only
        by_cases hcum : cumulative
        · rw [if_pos hcum]
          have hpos := hmode hcum
          rw [hrd] at hpos
          exact cumulativeCells_keys r first rest (by simpa using hpos)
        · rw [if_neg hcum]
          exact stepCells_keys r _
      have hchunkdup : ¬ ((regionRateCells cumulative r df).map keyOf).Nodup := by
        rw [hkeys, pair_keys_nodup_iff]
        rw [hrd] at hdup2
        exact hdup2
      have hchunkne : regionRateCells cumulative r df ≠ [] := by
        intro hcon
        rw [hcon] at hkeys
        simp at hkeys
      have hdecomp := heatmapData_decomp cumulative df s t r
      have hcellsne : heatmapData cumulative (s ++ r :: t) df ≠ [] := by
        rw [hdecomp]
        intro hcon
        rcases List.append_eq_nil.mp hcon with ⟨_, h2⟩
        rcases List.append_eq_nil.mp h2 with ⟨h3, _⟩
        exact hchunkne h3
      have hkeysdup : ¬ ((heatmapData cumulative (s ++ r :: t) df).map keyOf).Nodup := by
        rw [hdecomp, List.map_append, List.map_append]
        intro hcon
        exact hchunkdup (hcon.of_append_right.of_append_left)
      unfold heatmapMatrix
      rw [if_neg hcellsne, if_neg hkeysdup]
  · intro hreg hdates
    by_cases hcells : heatmapData cumulative regions df = []
    · refine ⟨none, ?_⟩
      unfold heatmapMatrix
      rw [if_pos hcells]
    · refine ⟨some (pivotReindex (heatmapData cumulative regions df) regions), ?_⟩
      unfold heatmapMatrix
      rw [if_neg hcells, if_pos (heatmapData_keys_nodup cumulative regions df hreg hdates)]

/-- C10 witness: in step mode a duplicated date for a requested region makes
the pivot raise, while duplicate-free dates construct successfully. -/
theorem C10_pivot_partiality_witness :
    heatmapMatrix false ["A"] [⟨"A", 0, 1⟩, ⟨"A", 0, 2⟩] = Except.error () :=
  (C10_pivot_partiality false ["A"] [⟨"A", 0, 1⟩, ⟨"A", 0, 2⟩]).1 "A"
    (by decide) (by decide) (by decide)

/-- C10 counterexample: an input with two observations on the same
`(region, date)` pair need not raise — in cumulative mode a region whose
first value is not positive is dropped before the pivot, so the duplicate
never reaches it and the construction returns without a matrix instead of
raising. -/
theorem C10_pivot_partiality_counterexample :
    heatmapMatrix true ["A"] [⟨"A", 0, 0⟩, ⟨"A", 0, 0⟩] = Except.ok none := by
  rfl
